import Mathlib

/-!
Verification of the social-network database loader and query layer
(`load_data_from_csv`, `get_club_members`, `get_friends_of_person`,
`get_persons_who_consider_them_friend`) from the course-assignment notebook.

The embedding models:
  * the four tables created by `create_database` (people, clubs, friendships,
    club_members) as ordered lists — row order models SQLite rowid/insertion
    order, which is the order the ORM returns rows in for the queries at hand;
  * `pd.read_csv(..., converters={Friendships: eval, Clubs: eval})` as an
    explicit CSV structure plus parsers for the two list-literal columns;
  * the two commits of `load_data_from_csv` as primary-key uniqueness checks
    (people.id, and the composite primary keys of club_members and
    friendships declared in `create_database`): a violated check is the
    IntegrityError the real commit raises, and rolls the transaction back;
  * the three query functions by direct translation of their SQLAlchemy
    queries (`.filter(...).first()`, relationship traversal, `.all()`).
-/

/-- A row of the `people` table (class `Person` in `create_database`). -/
structure Person where
  id : Int
  name : String
  age : Int
  gender : String
  location : String
  deriving DecidableEq

/-- A row of the `clubs` table (class `Club` in `create_database`). -/
structure Club where
  id : Int
  description : String
  deriving DecidableEq

/-- One record of members.csv after parsing: columns ID, Name, Surname, Age,
Gender, Location, Clubs (list of strings), Friendships (list of ids). -/
structure Row where
  id : Int
  name : String
  surname : String
  age : Int
  gender : String
  location : String
  clubs : List String
  friendships : List Int
  deriving DecidableEq

/-- The whole store: the four tables, each in rowid (insertion) order.
`friendships` holds (person_id, friend_id); `club_members` holds
(person_id, club_id). -/
structure DB where
  people : List Person
  clubs : List Club
  friendships : List (Int × Int)
  club_members : List (Int × Int)
  deriving DecidableEq

def DB.empty : DB := ⟨[], [], [], []⟩

/-- Step 1 of `load_data_from_csv`: `session.query(...).delete()` on all four
tables, committed — a full reset. -/
def clearDB (_db : DB) : DB := ⟨[], [], [], []⟩

/-- The display name stored for a record: `f"{row[Name]} {row[Surname]}"`. -/
def displayName (r : Row) : String := r.name ++ " " ++ r.surname

/-- The Person object constructed for a CSV record in pass 1 of the load. -/
def mkPerson (r : Row) : Person :=
  ⟨r.id, displayName r, r.age, r.gender, r.location⟩

/-- The club-related state threaded through pass 1: the clubs created so far
(serving as `clubs_dict`, keyed by description) and the membership edges
appended so far (`club.members.append(person)`). -/
structure ClubState where
  clubs : List Club
  club_members : List (Int × Int)
  deriving DecidableEq

/-- Processing one club description of one record: get-or-create the club
(`if club_description not in clubs_dict`), then append a membership edge.
A new club receives the next id the autoincrementing primary key will assign
(ids 1.. in creation order). -/
def addClub (pid : Int) (st : ClubState) (d : String) : ClubState :=
  match st.clubs.find? (fun c => c.description == d) with
  | some c => ⟨st.clubs, st.club_members ++ [(pid, c.id)]⟩
  | none =>
      ⟨st.clubs ++ [⟨(st.clubs.length : Int) + 1, d⟩],
       st.club_members ++ [(pid, (st.clubs.length : Int) + 1)]⟩

/-- Processing the Clubs column of one record in pass 1. -/
def addRowClubs (st : ClubState) (r : Row) : ClubState :=
  r.clubs.foldl (addClub r.id) st

/-- Pass 1 over all records: clubs and membership edges. -/
def buildClubs (rows : List Row) : ClubState :=
  rows.foldl addRowClubs ⟨[], []⟩

/-- Pass 2 (`Step 4` of the source): for each record, for each listed friend
id, `if friend_id in people_dict` append a directed friendship edge.
`people_dict` holds every loaded record keyed by id. -/
def pass2 (rows : List Row) : List (Int × Int) :=
  rows.flatMap fun r =>
    (r.friendships.filter (fun f => rows.any (fun s => s.id == f))).map
      (fun f => (r.id, f))

/-- The outcome of a call to `load_data_from_csv`: the store contents after
the call, and the error reported to the caller, if any. -/
structure LoadResult where
  db : DB
  error : Option String
  deriving DecidableEq

def pkErrPeople : String :=
  "IntegrityError: UNIQUE constraint failed: people / club_members"

def pkErrFriend : String :=
  "IntegrityError: UNIQUE constraint failed: friendships"

/-- Loading a list of parsed records into the (already cleared) store.
The first commit persists people, clubs and memberships and enforces the
primary keys of `people` and `club_members`; on violation the transaction
rolls back and the store keeps only the committed clear (empty).  The second
commit persists friendships and enforces the composite primary key of
`friendships`; on violation the friendship inserts roll back and the store
keeps the data of the first commit. -/
def loadRows (rows : List Row) : LoadResult :=
  let people := rows.map mkPerson
  let cs := buildClubs rows
  if (people.map Person.id).Nodup ∧ cs.club_members.Nodup then
    let edges := pass2 rows
    if edges.Nodup then
      ⟨⟨people, cs.clubs, edges, cs.club_members⟩, none⟩
    else
      ⟨⟨people, cs.clubs, [], cs.club_members⟩, some pkErrFriend⟩
  else
    ⟨⟨[], [], [], []⟩, some pkErrPeople⟩

/-- A CSV file: a header row of column names, and data rows of raw cells. -/
structure CSVFile where
  header : List String
  rows : List (List String)
  deriving DecidableEq

/-- Leading and trailing spaces removed from a character list. -/
def trimChars (cs : List Char) : List Char :=
  ((cs.dropWhile (fun c => c = ' ')).reverse.dropWhile (fun c => c = ' ')).reverse

/-- The inside of a bracketed list literal `[ ... ]`, trimmed, if the
brackets are present. -/
def stripBrackets (cs : List Char) : Option (List Char) :=
  match trimChars cs with
  | '[' :: rest =>
      match rest.reverse with
      | ']' :: midrev => some (trimChars midrev.reverse)
      | _ => none
  | _ => none

/-- Splitting a character list at every comma. -/
def splitCommas : List Char → List (List Char)
  | [] => [[]]
  | c :: rest =>
      if c = ',' then [] :: splitCommas rest
      else
        match splitCommas rest with
        | [] => [[c]]
        | g :: gs => (c :: g) :: gs

def parseNatChars (cs : List Char) : Option Nat :=
  if cs.isEmpty then none
  else
    cs.foldl
      (fun acc c =>
        acc.bind fun n => if c.isDigit then some (n * 10 + (c.toNat - 48)) else none)
      (some 0)

def parseIntChars : List Char → Option Int
  | '-' :: rest => (parseNatChars rest).map (fun n => -(n : Int))
  | cs => (parseNatChars cs).map (fun n => (n : Int))

/-- Parser for the Friendships column, a Python list literal of ints such as
`[1, 2, 3]` (the `eval` converter of the source's `pd.read_csv`). -/
def parseIntList (s : String) : Option (List Int) :=
  match stripBrackets s.data with
  | none => none
  | some inner =>
      if inner.isEmpty then some []
      else (splitCommas inner).mapM (fun cs => parseIntChars (trimChars cs))

/-- Parser for one quoted string inside a list literal. -/
def parseQuotedChars (cs : List Char) : Option String :=
  match trimChars cs with
  | '"' :: rest =>
      match rest.reverse with
      | '"' :: midrev => some (String.mk midrev.reverse)
      | _ => none
  | _ => none

/-- Parser for the Clubs column, a Python list literal of strings (the `eval`
converter of the source's `pd.read_csv`).  Club names are taken not to
contain commas, which holds for all data in scope. -/
def parseStrList (s : String) : Option (List String) :=
  match stripBrackets s.data with
  | none => none
  | some inner =>
      if inner.isEmpty then some []
      else (splitCommas inner).mapM parseQuotedChars

/-- Looking a named column up in a raw CSV row (`row["ID"]` etc.); a missing
column or short row is the KeyError the source raises. -/
def getCol (header cells : List String) (colName : String) : Except String String :=
  match header.findIdx? (fun h => h == colName) with
  | some i =>
      match cells.get? i with
      | some v => Except.ok v
      | none => Except.error ("KeyError: " ++ colName)
  | none => Except.error ("KeyError: " ++ colName)

def intCol (header cells : List String) (colName : String) : Except String Int := do
  let v ← getCol header cells colName
  match parseIntChars (trimChars v.data) with
  | some n => Except.ok n
  | none => Except.error ("ValueError: " ++ colName)

/-- Whether the frame has a column of this name: `row[c]` raises KeyError in
the source exactly when it does not. -/
def hasCol (file : CSVFile) (c : String) : Bool :=
  file.header.any (fun h => h == c)

/-- The eval converters of one row, as `pd.read_csv` runs them at read time:
the cell of the Clubs column and the cell of the Friendships column must
each parse as a list literal — but only when that column exists; a converter
keyed to an absent column is silently ignored by pandas. -/
def convertersRowOk (header cells : List String) (hasClubs hasFriends : Bool) :
    Except String Unit := do
  let _ ← (if hasClubs then
      match getCol header cells "Clubs" with
      | Except.error e => Except.error e
      | Except.ok v =>
          match parseStrList v with
          | some _ => Except.ok ()
          | none => Except.error ("SyntaxError: Clubs: " ++ v)
    else Except.ok ())
  (if hasFriends then
      match getCol header cells "Friendships" with
      | Except.error e => Except.error e
      | Except.ok v =>
          match parseIntList v with
          | some _ => Except.ok ()
          | none => Except.error ("SyntaxError: Friendships: " ++ v)
    else Except.ok ())

/-- All read-time converter runs of `pd.read_csv`: an unparsable list literal
in a present Clubs or Friendships column fails the read before any row is
processed; a missing column raises nothing here. -/
def convertersOk (file : CSVFile) : Except String Unit := do
  let _ ← file.rows.mapM (fun cells =>
    convertersRowOk file.header cells (hasCol file "Clubs")
      (hasCol file "Friendships"))
  Except.ok ()

/-- The column accesses of the load's first loop for one record:
`row["ID"] .. row["Location"]` in the Person constructor, then
`row["Clubs"]`.  `row["Friendships"]` is *not* read in this loop; the field
is filled with the value the read-time converter produced when the column
exists, and with the empty list otherwise — a value never consumed, because
the second loop raises its KeyError before using it. -/
def parseRowMain (header cells : List String) : Except String Row := do
  let id ← intCol header cells "ID"
  let name ← getCol header cells "Name"
  let surname ← getCol header cells "Surname"
  let age ← intCol header cells "Age"
  let gender ← getCol header cells "Gender"
  let location ← getCol header cells "Location"
  let clubsS ← getCol header cells "Clubs"
  let clubs ← match parseStrList clubsS with
    | some l => Except.ok l
    | none => Except.error ("SyntaxError: Clubs: " ++ clubsS)
  let friendships :=
    match getCol header cells "Friendships" with
    | Except.ok v => (parseIntList v).getD []
    | Except.error _ => []
  Except.ok ⟨id, name, surname, age, gender, location, clubs, friendships⟩

/-- The first loop's column accesses over the whole frame, failing at the
first offending row — all before the first commit. -/
def readMain (file : CSVFile) : Except String (List Row) :=
  file.rows.mapM (parseRowMain file.header)

/-- `load_data_from_csv`: clear the store (committed), then read the
hard-coded file "members.csv" — the `csv_path` parameter is not used by the
body — and populate.  `fs` models the file system: which file contents, if
any, each path holds.  Failures are sequenced as in the source: converter
errors inside `pd.read_csv` and KeyErrors of the first loop strike before
the first commit and leave the store empty; a missing Friendships column is
only discovered by `row["Friendships"]` in the second loop, *after* the
first commit, and leaves people, clubs and memberships loaded with no
friendship edges (as does a friendship primary-key violation at the second
commit, handled inside `loadRows`). -/
def load_data_from_csv (fs : String → Option CSVFile) (_csv_path : String)
    (db : DB) : LoadResult :=
  let cleared := clearDB db
  match fs "members.csv" with
  | none => ⟨cleared, some "FileNotFoundError: members.csv"⟩
  | some file =>
      match convertersOk file with
      | Except.error e => ⟨cleared, some e⟩
      | Except.ok _ =>
          match readMain file with
          | Except.error e => ⟨cleared, some e⟩
          | Except.ok rows =>
              if hasCol file "Friendships" || file.rows.isEmpty then
                loadRows rows
              else
                if ((rows.map mkPerson).map Person.id).Nodup ∧
                    (buildClubs rows).club_members.Nodup then
                  ⟨⟨rows.map mkPerson, (buildClubs rows).clubs, [],
                    (buildClubs rows).club_members⟩,
                   some "KeyError: Friendships"⟩
                else
                  ⟨⟨[], [], [], []⟩, some pkErrPeople⟩

/-- The club with a given description, as `load_data_from_csv` looks it up in
`clubs_dict` and as `get_club_members` queries it: the first (and, by
construction, only) club in table order whose description matches. -/
def clubFor (clubs : List Club) (d : String) : Option Club :=
  clubs.find? (fun c => c.description == d)

/-- Clubs with ids `n+1, n+2, ...` for a list of descriptions, in order:
the ids the autoincrementing primary key assigns. -/
def mkClubsFrom (n : Int) : List String → List Club
  | [] => []
  | d :: ds => ⟨n + 1, d⟩ :: mkClubsFrom (n + 1) ds

/-- Clubs with ids `1, 2, ...` for a list of descriptions, in order. -/
def mkClubs (ds : List String) : List Club := mkClubsFrom 0 ds

/-- First-seen accumulation of club descriptions: a description already seen
is skipped, a new one is appended. -/
def addDescs (acc : List String) (descs : List String) : List String :=
  descs.foldl (fun a d => if d ∈ a then a else a ++ [d]) acc

/-- All club descriptions of the input, in first-seen order across the whole
load pass. -/
def clubDescsFrom (acc : List String) (rows : List Row) : List String :=
  rows.foldl (fun a r => addDescs a r.clubs) acc

def clubDescs (rows : List Row) : List String := clubDescsFrom [] rows

/-- `get_club_members`: find the first club whose description matches
(`.filter(Club.description == d).first()`); if found return `club.members`
(the persons joined through club_members, in membership-creation order),
else the empty list. -/
def get_club_members (db : DB) (club_description : String) : List Person :=
  match db.clubs.find? (fun c => c.description == club_description) with
  | some club =>
      (db.club_members.filter (fun e => e.2 == club.id)).filterMap
        (fun e => db.people.find? (fun p => p.id == e.1))
  | none => []

/-- `get_friends_of_person`: find the first person whose name matches; if
found return `person.friends` (targets of friendship edges out of them, in
edge-creation order), else the empty list. -/
def get_friends_of_person (db : DB) (person_name : String) : List Person :=
  match db.people.find? (fun p => p.name == person_name) with
  | some person =>
      (db.friendships.filter (fun e => e.1 == person.id)).filterMap
        (fun e => db.people.find? (fun p => p.id == e.2))
  | none => []

/-- `get_persons_who_consider_them_friend`: find the target by name; if found
return every person having a friendship edge to the target
(`Person.friends.any(Person.id == target.id)` — an exists-subquery), in
people-table order, else the empty list. -/
def get_persons_who_consider_them_friend (db : DB) (person_name : String) :
    List Person :=
  match db.people.find? (fun p => p.name == person_name) with
  | some target =>
      db.people.filter
        (fun p => db.friendships.any (fun e => e.1 == p.id && e.2 == target.id))
  | none => []

/-! ### Concrete data used by witnesses and counterexamples -/

/-- A three-person input mirroring the end-to-end scenario of the design:
John Rocha (Fitness Club, friend 1), Amanda Norris (Fitness Club), and a
third person who lists John as a friend. -/
def scenarioRows : List Row :=
  [⟨0, "John", "Rocha", 57, "Male", "MN", ["Fitness Club"], [1]⟩,
   ⟨1, "Amanda", "Norris", 27, "Female", "CA", ["Fitness Club"], []⟩,
   ⟨2, "Casper", "Ghost", 40, "Male", "TX", [], [0]⟩]

/-- Input with two persons sharing the display name "Alex Reed": person 6
lists person 7 as a friend, person 7 lists nobody. -/
def dupNameRows : List Row :=
  [⟨5, "Alex", "Reed", 30, "F", "NY", [], []⟩,
   ⟨6, "Alex", "Reed", 31, "M", "WA", [], [7]⟩,
   ⟨7, "Blake", "Stone", 32, "M", "OR", [], []⟩]

/-- Input with two persons sharing the display name "Dana Lee": record 11
lists the loaded id 12 among its friends. -/
def dupNameRows2 : List Row :=
  [⟨10, "Dana", "Lee", 40, "F", "NY", [], []⟩,
   ⟨11, "Dana", "Lee", 41, "M", "WA", [], [12]⟩,
   ⟨12, "Evan", "Poe", 42, "M", "OR", [], []⟩]

/-- Input exercising dangling references: record 20 lists loaded id 21 and
the absent id 99. -/
def danglingRows : List Row :=
  [⟨20, "Gail", "Hart", 50, "F", "NV", ["Book Club"], [21, 99]⟩,
   ⟨21, "Ivan", "Jones", 51, "M", "UT", ["Book Club", "Ski Club"], []⟩]

/-- A well-formed CSV file whose first record lists friend id 1 twice —
no malformed row, but the duplicate violates the composite primary key of
`friendships` at the second commit. -/
def dupFriendFile : CSVFile :=
  ⟨["ID", "Name", "Surname", "Age", "Gender", "Location", "Clubs", "Friendships"],
   [["0", "Ann", "Bell", "30", "M", "X", "[\"Chess Club\"]", "[1, 1]"],
    ["1", "Cara", "Dean", "31", "F", "Y", "[]", "[]"]]⟩

/-- The records `read_csv` produces for `dupFriendFile`. -/
def dupFriendRows : List Row :=
  [⟨0, "Ann", "Bell", 30, "M", "X", ["Chess Club"], [1, 1]⟩,
   ⟨1, "Cara", "Dean", 31, "F", "Y", [], []⟩]

/-- A CSV file with an unparsable Clubs list literal in its only row. -/
def badLiteralFile : CSVFile :=
  ⟨["ID", "Name", "Surname", "Age", "Gender", "Location", "Clubs", "Friendships"],
   [["0", "Ann", "Bell", "30", "M", "X", "[oops", "[]"]]⟩

/-- A file system holding `dupFriendFile` at members.csv. -/
def dupFriendFs : String → Option CSVFile :=
  fun p => if p = "members.csv" then some dupFriendFile else none

/-- A file system holding `badLiteralFile` at members.csv. -/
def badLiteralFs : String → Option CSVFile :=
  fun p => if p = "members.csv" then some badLiteralFile else none

/-- A nonempty prior store, as left by some earlier load. -/
def prevDB : DB :=
  ⟨[⟨99, "Old Person", 80, "F", "Old Town"⟩], [⟨1, "Old Club"⟩], [], []⟩

/-- A CSV file with a well-formed data row but no Friendships column: the
first loop and first commit succeed, and the second loop's
`row["Friendships"]` raises KeyError. -/
def missingFriendshipsFile : CSVFile :=
  ⟨["ID", "Name", "Surname", "Age", "Gender", "Location", "Clubs"],
   [["0", "Ann", "Bell", "30", "M", "X", "[\"Chess Club\"]"]]⟩

/-- The records the first loop builds for `missingFriendshipsFile`. -/
def missingFriendshipsRows : List Row :=
  [⟨0, "Ann", "Bell", 30, "M", "X", ["Chess Club"], []⟩]

/-- A file system holding `missingFriendshipsFile` at members.csv. -/
def missingFriendshipsFs : String → Option CSVFile :=
  fun p => if p = "members.csv" then some missingFriendshipsFile else none

/-! ### Generic list helpers -/

theorem filterMap_ext_mem {α β : Type} {l : List α} {f g : α → Option β}
    (h : ∀ a ∈ l, f a = g a) : l.filterMap f = l.filterMap g := by
  induction l with
  | nil => rfl
  | cons a t ih =>
      rw [List.filterMap_cons, List.filterMap_cons, h a (List.mem_cons_self a t),
        ih (fun x hx => h x (List.mem_cons_of_mem a hx))]

theorem flatMap_if_singleton {α β : Type} (l : List α) (p : α → Prop)
    [DecidablePred p] (f : α → β) :
    (l.flatMap fun a => if p a then [f a] else []) =
      (l.filter (fun a => decide (p a))).map f := by
  induction l with
  | nil => rfl
  | cons a t ih =>
      by_cases h : p a <;> simp [List.flatMap_cons, List.filter_cons, h, ih]

theorem filterMap_eq_map_of_some {α β : Type} {l : List α} {f : α → Option β}
    {g : α → β} (h : ∀ a ∈ l, f a = some (g a)) : l.filterMap f = l.map g := by
  induction l with
  | nil => rfl
  | cons a t ih =>
      simp [List.filterMap_cons, h a (List.mem_cons_self a t),
        ih fun x hx => h x (List.mem_cons_of_mem a hx)]

theorem nodup_of_filterMap_nodup {α β : Type} {l : List α} {f : α → Option β}
    (hs : ∀ a ∈ l, (f a).isSome) (h : (l.filterMap f).Nodup) : l.Nodup := by
  induction l with
  | nil => exact List.nodup_nil
  | cons a t ih =>
      obtain ⟨b, hb⟩ := Option.isSome_iff_exists.mp (hs a (List.mem_cons_self a t))
      rw [List.filterMap_cons, hb] at h
      rcases List.nodup_cons.mp h with ⟨hbmem, ht⟩
      refine List.nodup_cons.mpr
        ⟨?_, ih (fun x hx => hs x (List.mem_cons_of_mem a hx)) ht⟩
      intro ha
      exact hbmem (List.mem_filterMap.mpr ⟨a, ha, hb⟩)

theorem flatMap_nodup_each {α β : Type} {l : List α} {f : α → List β}
    (h : (l.flatMap f).Nodup) : ∀ a ∈ l, (f a).Nodup := by
  induction l with
  | nil => intro a ha; cases ha
  | cons x t ih =>
      rw [List.flatMap_cons] at h
      rcases List.nodup_append.mp h with ⟨h1, h2, _⟩
      intro a ha
      rcases List.mem_cons.mp ha with rfl | ha
      · exact h1
      · exact ih h2 a ha

theorem nodup_append_singleton {α : Type} {l : List α} {a : α}
    (h : l.Nodup) (ha : a ∉ l) : (l ++ [a]).Nodup := by
  rw [List.nodup_append]
  refine ⟨h, List.nodup_singleton a, ?_⟩
  intro x hx hxa
  rcases List.mem_singleton.mp hxa with rfl
  exact ha hx

/-! ### Facts about the club id assignment -/

theorem mkClubsFrom_append (n : Int) (l1 l2 : List String) :
    mkClubsFrom n (l1 ++ l2) = mkClubsFrom n l1 ++ mkClubsFrom (n + l1.length) l2 := by
  induction l1 generalizing n with
  | nil => simp [mkClubsFrom]
  | cons d ds ih =>
      have harith : n + 1 + (ds.length : Int) = n + ((ds.length + 1 : Nat) : Int) := by
        push_cast; ring
      simp only [List.cons_append, mkClubsFrom, List.length_cons, List.append_eq]
      rw [ih (n + 1), harith]

theorem mkClubs_append (l1 l2 : List String) :
    mkClubs (l1 ++ l2) = mkClubs l1 ++ mkClubsFrom l1.length l2 := by
  have := mkClubsFrom_append 0 l1 l2
  simpa [mkClubs] using this

theorem mkClubsFrom_length (n : Int) (l : List String) :
    (mkClubsFrom n l).length = l.length := by
  induction l generalizing n with
  | nil => rfl
  | cons d ds ih => simp [mkClubsFrom, ih]

theorem mkClubsFrom_map_desc (n : Int) (l : List String) :
    (mkClubsFrom n l).map Club.description = l := by
  induction l generalizing n with
  | nil => rfl
  | cons d ds ih => simp [mkClubsFrom, ih]

theorem mkClubsFrom_id_bounds (n : Int) (l : List String) :
    ∀ c ∈ mkClubsFrom n l, n < c.id ∧ c.id ≤ n + l.length := by
  induction l generalizing n with
  | nil => intro c hc; cases hc
  | cons d ds ih =>
      intro c hc
      rcases List.mem_cons.mp hc with rfl | hc
      · dsimp only
        refine ⟨by omega, ?_⟩
        simp only [List.length_cons]
        push_cast
        omega
      · rcases ih (n + 1) c hc with ⟨h1, h2⟩
        refine ⟨by omega, ?_⟩
        simp only [List.length_cons]
        push_cast at h2 ⊢
        omega

theorem mkClubsFrom_ids_nodup (n : Int) (l : List String) :
    ((mkClubsFrom n l).map Club.id).Nodup := by
  induction l generalizing n with
  | nil => exact List.nodup_nil
  | cons d ds ih =>
      simp only [mkClubsFrom, List.map_cons]
      refine List.nodup_cons.mpr ⟨?_, ih (n + 1)⟩
      intro hmem
      rcases List.mem_map.mp hmem with ⟨c, hc, hid⟩
      have := (mkClubsFrom_id_bounds (n + 1) ds c hc).1
      omega

/-! ### Facts about club lookup by description -/

theorem clubFor_some {clubs : List Club} {d : String} {c : Club}
    (h : clubFor clubs d = some c) : c ∈ clubs ∧ c.description = d := by
  refine ⟨List.mem_of_find?_eq_some h, ?_⟩
  have := List.find?_some h
  simpa using this

theorem clubFor_isSome_of_mem {l : List String} {d : String} (hd : d ∈ l) :
    (clubFor (mkClubs l) d).isSome := by
  rw [clubFor, List.find?_isSome]
  have hmem : d ∈ (mkClubsFrom 0 l).map Club.description := by
    rw [mkClubsFrom_map_desc]; exact hd
  rcases List.mem_map.mp hmem with ⟨c, hc, hcd⟩
  exact ⟨c, hc, by simpa using hcd⟩

theorem clubFor_eq_none_of_not_mem {l : List String} {d : String} (n : Int)
    (hd : d ∉ l) : clubFor (mkClubsFrom n l) d = none := by
  rw [clubFor, List.find?_eq_none]
  intro c hc
  simp only [beq_iff_eq]
  intro hcd
  apply hd
  rw [← mkClubsFrom_map_desc n l]
  exact hcd ▸ List.mem_map_of_mem Club.description hc

theorem clubFor_append_left {A B : List Club} {d : String}
    (h : (clubFor A d).isSome) : clubFor (A ++ B) d = clubFor A d := by
  simp only [clubFor] at h ⊢
  rw [List.find?_append]
  obtain ⟨c, hc⟩ := Option.isSome_iff_exists.mp h
  rw [hc]
  rfl

theorem clubFor_fresh {l1 : List String} (d : String) (l2 : List String)
    (hd : d ∉ l1) :
    clubFor (mkClubs (l1 ++ d :: l2)) d = some ⟨(l1.length : Int) + 1, d⟩ := by
  rw [mkClubs, mkClubsFrom_append]
  have h1 : clubFor (mkClubsFrom 0 l1) d = none := clubFor_eq_none_of_not_mem 0 hd
  rw [clubFor] at h1 ⊢
  rw [List.find?_append, h1]
  simp [mkClubsFrom, List.find?_cons]

/-! ### Facts about first-seen description accumulation -/

theorem addDescs_nil (acc : List String) : addDescs acc [] = acc := rfl

theorem addDescs_cons (acc : List String) (d : String) (ds : List String) :
    addDescs acc (d :: ds) = addDescs (if d ∈ acc then acc else acc ++ [d]) ds := rfl

theorem addDescs_exists_suffix (descs : List String) :
    ∀ acc, ∃ t, addDescs acc descs = acc ++ t := by
  induction descs with
  | nil => intro acc; exact ⟨[], by simp [addDescs_nil]⟩
  | cons d ds ih =>
      intro acc
      rw [addDescs_cons]
      by_cases h : d ∈ acc
      · simpa [h] using ih acc
      · rcases ih (acc ++ [d]) with ⟨t, ht⟩
        refine ⟨d :: t, ?_⟩
        rw [if_neg h, ht, List.append_assoc, List.singleton_append]

theorem addDescs_nodup (descs : List String) :
    ∀ acc, acc.Nodup → (addDescs acc descs).Nodup := by
  induction descs with
  | nil => exact fun acc h => h
  | cons d ds ih =>
      intro acc h
      rw [addDescs_cons]
      by_cases hd : d ∈ acc
      · rw [if_pos hd]; exact ih acc h
      · rw [if_neg hd]; exact ih _ (nodup_append_singleton h hd)

theorem addDescs_mem_iff (descs : List String) (x : String) :
    ∀ acc, x ∈ addDescs acc descs ↔ x ∈ acc ∨ x ∈ descs := by
  induction descs with
  | nil => intro acc; simp [addDescs_nil]
  | cons d ds ih =>
      intro acc
      rw [addDescs_cons, ih]
      by_cases h : d ∈ acc
      · rw [if_pos h]
        simp only [List.mem_cons]
        constructor
        · rintro (hx | hx)
          · exact Or.inl hx
          · exact Or.inr (Or.inr hx)
        · rintro (hx | rfl | hx)
          · exact Or.inl hx
          · exact Or.inl h
          · exact Or.inr hx
      · rw [if_neg h]
        simp only [List.mem_append, List.mem_singleton, List.mem_cons]
        tauto

theorem clubDescsFrom_nil (acc : List String) : clubDescsFrom acc [] = acc := rfl

theorem clubDescsFrom_cons (acc : List String) (r : Row) (rs : List Row) :
    clubDescsFrom acc (r :: rs) = clubDescsFrom (addDescs acc r.clubs) rs := rfl

theorem clubDescsFrom_exists_suffix (rows : List Row) :
    ∀ acc, ∃ t, clubDescsFrom acc rows = acc ++ t := by
  induction rows with
  | nil => intro acc; exact ⟨[], by simp [clubDescsFrom_nil]⟩
  | cons r rs ih =>
      intro acc
      rcases addDescs_exists_suffix r.clubs acc with ⟨t1, ht1⟩
      rcases ih (addDescs acc r.clubs) with ⟨t2, ht2⟩
      exact ⟨t1 ++ t2, by rw [clubDescsFrom_cons, ht2, ht1, List.append_assoc]⟩

theorem clubDescsFrom_nodup (rows : List Row) :
    ∀ acc, acc.Nodup → (clubDescsFrom acc rows).Nodup := by
  induction rows with
  | nil => exact fun _ h => h
  | cons r rs ih => exact fun acc h => ih _ (addDescs_nodup r.clubs acc h)

theorem clubDescsFrom_mem_iff (rows : List Row) (x : String) :
    ∀ acc, x ∈ clubDescsFrom acc rows ↔ x ∈ acc ∨ ∃ r ∈ rows, x ∈ r.clubs := by
  induction rows with
  | nil => intro acc; simp [clubDescsFrom_nil]
  | cons r rs ih =>
      intro acc
      rw [clubDescsFrom_cons, ih, addDescs_mem_iff]
      constructor
      · rintro ((hx | hx) | ⟨s, hs, hx⟩)
        · exact Or.inl hx
        · exact Or.inr ⟨r, List.mem_cons_self r rs, hx⟩
        · exact Or.inr ⟨s, List.mem_cons_of_mem r hs, hx⟩
      · rintro (hx | ⟨s, hs, hx⟩)
        · exact Or.inl (Or.inl hx)
        · rcases List.mem_cons.mp hs with rfl | hs
          · exact Or.inl (Or.inr hx)
          · exact Or.inr ⟨s, hs, hx⟩

/-! ### Characterization of pass 1 -/

theorem addClub_found {pid : Int} {st : ClubState} {d : String} {c : Club}
    (h : clubFor st.clubs d = some c) :
    addClub pid st d = ⟨st.clubs, st.club_members ++ [(pid, c.id)]⟩ := by
  rw [clubFor] at h
  simp [addClub, h]

theorem addClub_new {pid : Int} {st : ClubState} {d : String}
    (h : clubFor st.clubs d = none) :
    addClub pid st d =
      ⟨st.clubs ++ [⟨(st.clubs.length : Int) + 1, d⟩],
       st.club_members ++ [(pid, (st.clubs.length : Int) + 1)]⟩ := by
  rw [clubFor] at h
  simp [addClub, h]

theorem foldl_addClub_spec (pid : Int) (descs : List String) :
    ∀ (ds : List String) (ms : List (Int × Int)), ds.Nodup →
      descs.foldl (addClub pid) ⟨mkClubs ds, ms⟩ =
        ⟨mkClubs (addDescs ds descs),
         ms ++ descs.filterMap (fun d =>
           (clubFor (mkClubs (addDescs ds descs)) d).map (fun c => (pid, c.id)))⟩ := by
  induction descs with
  | nil => intro ds ms _; simp [addDescs_nil]
  | cons d rest ih =>
      intro ds ms hnd
      rw [List.foldl_cons, addDescs_cons]
      by_cases hd : d ∈ ds
      · rw [if_pos hd]
        have hsome : (clubFor (mkClubs ds) d).isSome := clubFor_isSome_of_mem hd
        obtain ⟨c, hc⟩ := Option.isSome_iff_exists.mp hsome
        have hstep : addClub pid ⟨mkClubs ds, ms⟩ d =
            ⟨mkClubs ds, ms ++ [(pid, c.id)]⟩ := addClub_found hc
        rw [hstep, ih ds (ms ++ [(pid, c.id)]) hnd]
        obtain ⟨t, ht⟩ := addDescs_exists_suffix rest ds
        have hstable : clubFor (mkClubs (addDescs ds rest)) d = some c := by
          rw [ht, mkClubs_append, clubFor_append_left hsome, hc]
        rw [List.filterMap_cons, hstable]
        simp [List.append_assoc]
      · rw [if_neg hd]
        have hnone : clubFor (mkClubs ds) d = none := clubFor_eq_none_of_not_mem 0 hd
        have hstep : addClub pid ⟨mkClubs ds, ms⟩ d =
            ⟨mkClubs (ds ++ [d]), ms ++ [(pid, (ds.length : Int) + 1)]⟩ := by
          rw [addClub_new hnone]
          have hlen : ((mkClubs ds).length : Int) = (ds.length : Int) := by
            rw [mkClubs, mkClubsFrom_length]
          rw [mkClubs_append]
          simp only [hlen]
          rfl
        rw [hstep, ih (ds ++ [d]) _ (nodup_append_singleton hnd hd)]
        obtain ⟨t, ht⟩ := addDescs_exists_suffix rest (ds ++ [d])
        have hsplit : addDescs (ds ++ [d]) rest = ds ++ d :: t := by
          rw [ht, List.append_assoc, List.singleton_append]
        have hfresh : clubFor (mkClubs (addDescs (ds ++ [d]) rest)) d =
            some ⟨(ds.length : Int) + 1, d⟩ := by
          rw [hsplit]
          exact clubFor_fresh d t hd
        rw [List.filterMap_cons, hfresh]
        simp [List.append_assoc]

theorem foldl_addRowClubs_spec (rows : List Row) :
    ∀ (ds : List String) (ms : List (Int × Int)), ds.Nodup →
      rows.foldl addRowClubs ⟨mkClubs ds, ms⟩ =
        ⟨mkClubs (clubDescsFrom ds rows),
         ms ++ rows.flatMap (fun r => r.clubs.filterMap (fun d =>
           (clubFor (mkClubs (clubDescsFrom ds rows)) d).map
             (fun c => (r.id, c.id))))⟩ := by
  induction rows with
  | nil => intro ds ms _; simp [clubDescsFrom_nil]
  | cons r rs ih =>
      intro ds ms hnd
      rw [List.foldl_cons]
      have h1 : addRowClubs ⟨mkClubs ds, ms⟩ r =
          ⟨mkClubs (addDescs ds r.clubs),
           ms ++ r.clubs.filterMap (fun d =>
             (clubFor (mkClubs (addDescs ds r.clubs)) d).map
               (fun c => (r.id, c.id)))⟩ :=
        foldl_addClub_spec r.id r.clubs ds ms hnd
      rw [h1, ih (addDescs ds r.clubs) _ (addDescs_nodup r.clubs ds hnd),
        clubDescsFrom_cons, List.flatMap_cons, ← List.append_assoc]
      congr 2
      congr 1
      apply filterMap_ext_mem
      intro d hdmem
      have hd1 : d ∈ addDescs ds r.clubs :=
        (addDescs_mem_iff r.clubs d ds).mpr (Or.inr hdmem)
      have hsome : (clubFor (mkClubs (addDescs ds r.clubs)) d).isSome :=
        clubFor_isSome_of_mem hd1
      obtain ⟨t, ht⟩ := clubDescsFrom_exists_suffix rs (addDescs ds r.clubs)
      rw [ht, mkClubs_append, clubFor_append_left hsome]

theorem buildClubs_spec (rows : List Row) :
    buildClubs rows =
      ⟨mkClubs (clubDescs rows),
       rows.flatMap (fun r => r.clubs.filterMap (fun d =>
         (clubFor (mkClubs (clubDescs rows)) d).map (fun c => (r.id, c.id))))⟩ := by
  have h := foldl_addRowClubs_spec rows [] [] List.nodup_nil
  simpa [buildClubs, clubDescs, mkClubs, mkClubsFrom] using h

/-! ### The load pipeline on success -/

theorem map_mkPerson_id (rows : List Row) :
    (rows.map mkPerson).map Person.id = rows.map Row.id := by
  rw [List.map_map]
  rfl

theorem loadRows_ok (rows : List Row)
    (h1 : ((rows.map mkPerson).map Person.id).Nodup)
    (hm : (buildClubs rows).club_members.Nodup)
    (h3 : (pass2 rows).Nodup) :
    loadRows rows =
      ⟨⟨rows.map mkPerson, (buildClubs rows).clubs, pass2 rows,
        (buildClubs rows).club_members⟩, none⟩ := by
  simp only [loadRows]
  rw [if_pos ⟨h1, hm⟩, if_pos h3]

theorem loadRows_inv (rows : List Row) (db : DB)
    (hok : loadRows rows = ⟨db, none⟩) :
    ((rows.map mkPerson).map Person.id).Nodup ∧
      (buildClubs rows).club_members.Nodup ∧ (pass2 rows).Nodup ∧
      db = ⟨rows.map mkPerson, (buildClubs rows).clubs, pass2 rows,
            (buildClubs rows).club_members⟩ := by
  simp only [loadRows] at hok
  split_ifs at hok with h12 h3
  · exact ⟨h12.1, h12.2, h3, (congrArg LoadResult.db hok).symm⟩
  · have := congrArg LoadResult.error hok
    simp at this
  · have := congrArg LoadResult.error hok
    simp at this

/-! ### Person lookup by key -/

theorem find?_people_by_key {κ : Type} [DecidableEq κ] (k : Person → κ)
    (kr : Row → κ) (hk : ∀ r, k (mkPerson r) = kr r) :
    ∀ (rows : List Row), (rows.map kr).Nodup →
      ∀ {r : Row}, r ∈ rows →
        (rows.map mkPerson).find? (fun p => k p == kr r) = some (mkPerson r) := by
  intro rows
  induction rows with
  | nil => intro _ r hr; cases hr
  | cons a t ih =>
      intro hnd r hr
      rw [List.map_cons] at hnd
      have hnd1 := List.nodup_cons.mp hnd
      by_cases he : kr a = kr r
      · have hr2 : r = a := by
          rcases List.mem_cons.mp hr with rfl | hrt
          · rfl
          · exact absurd (he ▸ List.mem_map_of_mem kr hrt) hnd1.1
        subst hr2
        rw [List.map_cons, List.find?_cons_of_pos]
        rw [hk, beq_iff_eq]
      · have hrt : r ∈ t := by
          rcases List.mem_cons.mp hr with rfl | hrt
          · exact absurd rfl he
          · exact hrt
        rw [List.map_cons, List.find?_cons_of_neg, ih hnd1.2 hrt]
        rw [hk]
        simp [he]

theorem find?_person_by_id {rows : List Row} (hnd : (rows.map Row.id).Nodup)
    {r : Row} (hr : r ∈ rows) :
    (rows.map mkPerson).find? (fun p => p.id == r.id) = some (mkPerson r) :=
  find?_people_by_key Person.id Row.id (fun _ => rfl) rows hnd hr

theorem find?_person_by_name {rows : List Row}
    (hnd : (rows.map displayName).Nodup) {r : Row} (hr : r ∈ rows) :
    (rows.map mkPerson).find? (fun p => p.name == displayName r) =
      some (mkPerson r) :=
  find?_people_by_key Person.name displayName (fun _ => rfl) rows hnd hr

/-! ### Pass-2 membership -/

theorem mem_pass2_iff (rows : List Row) (a b : Int) :
    (a, b) ∈ pass2 rows ↔
      ∃ r ∈ rows, r.id = a ∧ b ∈ r.friendships ∧ ∃ s ∈ rows, s.id = b := by
  rw [pass2, List.mem_flatMap]
  constructor
  · rintro ⟨r, hr, hmem⟩
    rcases List.mem_map.mp hmem with ⟨f, hf, heq⟩
    rcases List.mem_filter.mp hf with ⟨hfr, hany⟩
    rcases List.any_eq_true.mp hany with ⟨s, hs, hsf⟩
    rw [Prod.mk.injEq] at heq
    obtain ⟨h1, h2⟩ := heq
    subst h1
    subst h2
    exact ⟨r, hr, rfl, hfr, s, hs, beq_iff_eq.mp hsf⟩
  · rintro ⟨r, hr, rfl, hb, s, hs, rfl⟩
    refine ⟨r, hr, List.mem_map.mpr ⟨s.id, ?_, rfl⟩⟩
    exact List.mem_filter.mpr ⟨hb, List.any_eq_true.mpr ⟨s, hs, beq_iff_eq.mpr rfl⟩⟩

/-! ### Membership edges of a single club -/

theorem desc_present {rows : List Row} {r : Row} (hr : r ∈ rows) {d : String}
    (hd : d ∈ r.clubs) : d ∈ clubDescs rows :=
  (clubDescsFrom_mem_iff rows d []).mpr (Or.inr ⟨r, hr, hd⟩)

theorem row_clubs_nodup {rows : List Row}
    (hm : (buildClubs rows).club_members.Nodup) {r : Row} (hr : r ∈ rows) :
    r.clubs.Nodup := by
  have hm' : (rows.flatMap (fun r => r.clubs.filterMap (fun d =>
      (clubFor (mkClubs (clubDescs rows)) d).map (fun c => (r.id, c.id))))).Nodup := by
    rw [buildClubs_spec] at hm
    exact hm
  have hrow := flatMap_nodup_each hm' r hr
  refine nodup_of_filterMap_nodup ?_ hrow
  intro d hd
  obtain ⟨c, hc⟩ := Option.isSome_iff_exists.mp
    (clubFor_isSome_of_mem (desc_present hr hd))
  rw [hc]
  rfl

theorem edge_id_iff {F : List String} {d d' : String} {c c' : Club}
    (hc : clubFor (mkClubs F) d = some c) (hc' : clubFor (mkClubs F) d' = some c') :
    c'.id = c.id ↔ d' = d := by
  constructor
  · intro hid
    have h1 := clubFor_some hc
    have h2 := clubFor_some hc'
    have hcc : c' = c :=
      List.inj_on_of_nodup_map (mkClubsFrom_ids_nodup 0 F) h2.1 h1.1 hid
    rw [← h2.2, ← h1.2, hcc]
  · intro h
    subst h
    rw [hc] at hc'
    cases hc'
    rfl

theorem row_members_filter {F : List String} {d : String} {c : Club}
    (hc : clubFor (mkClubs F) d = some c) (pid : Int) :
    ∀ (L : List String), L.Nodup → (∀ x ∈ L, x ∈ F) →
      ((L.filterMap (fun x => (clubFor (mkClubs F) x).map
          (fun cx => (pid, cx.id)))).filter (fun e => e.2 == c.id)) =
        if d ∈ L then [(pid, c.id)] else [] := by
  intro L
  induction L with
  | nil => intro _ _; simp
  | cons x T ih =>
      intro hnd hsub
      have hx : x ∈ F := hsub x (List.mem_cons_self x T)
      obtain ⟨cx, hcx⟩ := Option.isSome_iff_exists.mp (clubFor_isSome_of_mem hx)
      simp only [List.filterMap_cons, hcx, Option.map_some']
      rw [List.filter_cons]
      by_cases hxd : x = d
      · subst hxd
        rw [hc] at hcx
        injection hcx with hcc
        subst hcc
        rw [if_pos (by simp),
          if_pos (List.mem_cons_self x T)]
        have hdT : x ∉ T := (List.nodup_cons.mp hnd).1
        suffices hnil : ((T.filterMap (fun y => (clubFor (mkClubs F) y).map
            (fun cy => (pid, cy.id)))).filter (fun e => e.2 == c.id)) = [] by
          rw [hnil]
        rw [List.filter_eq_nil_iff]
        intro e he
        rcases List.mem_filterMap.mp he with ⟨d', hd', hres⟩
        rcases Option.map_eq_some'.mp hres with ⟨c', hc', rfl⟩
        simp only [beq_eq_false_iff_ne, ne_eq, Bool.not_eq_true]
        intro hid
        have : d' = x := (edge_id_iff hc hc').mp hid
        exact hdT (this ▸ hd')
      · have hne : ((pid, cx.id).2 == c.id) = false := by
          rw [beq_eq_false_iff_ne]
          intro hid
          exact hxd ((edge_id_iff hc hcx).mp hid)
        rw [if_neg (by simp [hne])]
        rw [ih (List.nodup_cons.mp hnd).2
          (fun y hy => hsub y (List.mem_cons_of_mem x hy))]
        by_cases hdT : d ∈ T
        · rw [if_pos hdT, if_pos (List.mem_cons_of_mem x hdT)]
        · rw [if_neg hdT, if_neg (by
            intro hmem
            rcases List.mem_cons.mp hmem with h | h
            · exact hxd h.symm
            · exact hdT h)]

theorem flatMap_ext_mem {α β : Type} {l : List α} {f g : α → List β}
    (h : ∀ a ∈ l, f a = g a) : l.flatMap f = l.flatMap g := by
  induction l with
  | nil => rfl
  | cons a t ih =>
      rw [List.flatMap_cons, List.flatMap_cons, h a (List.mem_cons_self a t),
        ih (fun x hx => h x (List.mem_cons_of_mem a hx))]

/-- Claim C1: for every club description d appearing in some record of a
successfully loaded input, `get_club_members` returns exactly the Persons
whose input record listed d among its clubs — with no duplicates and no
omissions — in the order the membership edges were created during load
(record order); Persons whose record did not list d are absent. -/
theorem club_members_exact (rows : List Row) (db : DB) (d : String)
    (hok : loadRows rows = ⟨db, none⟩) (hd : ∃ r ∈ rows, d ∈ r.clubs) :
    get_club_members db d =
      (rows.filter (fun r => decide (d ∈ r.clubs))).map mkPerson := by
  obtain ⟨h1, hm, h3, rfl⟩ := loadRows_inv rows db hok
  rw [map_mkPerson_id] at h1
  have hbc := buildClubs_spec rows
  have hclubs : (buildClubs rows).clubs = mkClubs (clubDescs rows) := by
    rw [hbc]
  have hmembers : (buildClubs rows).club_members =
      rows.flatMap (fun r => r.clubs.filterMap (fun x =>
        (clubFor (mkClubs (clubDescs rows)) x).map (fun cx => (r.id, cx.id)))) := by
    rw [hbc]
  obtain ⟨r0, hr0, hd0⟩ := hd
  obtain ⟨c, hc⟩ := Option.isSome_iff_exists.mp
    (clubFor_isSome_of_mem (desc_present hr0 hd0))
  have hc' := hc
  rw [clubFor] at hc'
  simp only [get_club_members, hclubs, hc']
  rw [hmembers, List.filter_flatMap]
  have hstep1 : (rows.flatMap fun r =>
      ((r.clubs.filterMap (fun x => (clubFor (mkClubs (clubDescs rows)) x).map
        (fun cx => (r.id, cx.id)))).filter (fun e => e.2 == c.id))) =
      rows.flatMap (fun r => if d ∈ r.clubs then [(r.id, c.id)] else []) := by
    apply flatMap_ext_mem
    intro r hr
    exact row_members_filter hc r.id r.clubs (row_clubs_nodup hm hr)
      (fun x hx => desc_present hr hx)
  rw [hstep1, flatMap_if_singleton rows (fun r => d ∈ r.clubs)
    (fun r => (r.id, c.id))]
  rw [List.filterMap_map]
  apply filterMap_eq_map_of_some
  intro r hr
  have hrr : r ∈ rows := List.mem_of_mem_filter hr
  exact find?_person_by_id h1 hrr

/-- Claim C7: during a single load, the first occurrence of a club
description creates exactly one Club (next available id), later occurrences
reuse it: after a successful load no two Clubs share a description, the club
table equals the first-seen description list with ids 1, 2, ... in first-seen
order across the whole pass, a description has a Club exactly when some
record listed it, and every membership edge references the unique club of
its description. -/
theorem clubs_unique_first_seen (rows : List Row) (db : DB)
    (hok : loadRows rows = ⟨db, none⟩) :
    (db.clubs.map Club.description).Nodup ∧
    db.clubs = mkClubs (clubDescs rows) ∧
    (∀ d : String, (∃ r ∈ rows, d ∈ r.clubs) ↔ ∃ c ∈ db.clubs, c.description = d) ∧
    db.club_members = rows.flatMap (fun r => r.clubs.filterMap (fun x =>
      (clubFor (mkClubs (clubDescs rows)) x).map (fun cx => (r.id, cx.id)))) := by
  obtain ⟨h1, hm, h3, rfl⟩ := loadRows_inv rows db hok
  have hbc := buildClubs_spec rows
  have hclubs : (buildClubs rows).clubs = mkClubs (clubDescs rows) := by
    rw [hbc]
  have hF : (clubDescs rows).Nodup := clubDescsFrom_nodup rows [] List.nodup_nil
  refine ⟨?_, hclubs, ?_, ?_⟩
  · show ((buildClubs rows).clubs.map Club.description).Nodup
    rw [hclubs, mkClubs, mkClubsFrom_map_desc]
    exact hF
  · intro d
    constructor
    · rintro ⟨r, hr, hd⟩
      obtain ⟨c, hc⟩ := Option.isSome_iff_exists.mp
        (clubFor_isSome_of_mem (desc_present hr hd))
      have hsome := clubFor_some hc
      refine ⟨c, ?_, hsome.2⟩
      show c ∈ (buildClubs rows).clubs
      rw [hclubs]
      exact hsome.1
    · rintro ⟨c, hcm, hcd⟩
      have hcm2 : c ∈ mkClubs (clubDescs rows) := by
        rw [← hclubs]
        exact hcm
      have hdm : c.description ∈ clubDescs rows := by
        have hmm := List.mem_map_of_mem Club.description hcm2
        rw [mkClubs, mkClubsFrom_map_desc] at hmm
        exact hmm
      rw [hcd] at hdm
      rcases (clubDescsFrom_mem_iff rows d []).mp hdm with h | h
      · cases h
      · exact h
  · show (buildClubs rows).club_members = _
    rw [hbc]

/-- Witness for C7 at the concrete scenario input. -/
theorem clubs_unique_first_seen_witness :
    ((loadRows scenarioRows).db.clubs.map Club.description).Nodup ∧
    (loadRows scenarioRows).db.clubs = mkClubs (clubDescs scenarioRows) :=
  ⟨(clubs_unique_first_seen scenarioRows (loadRows scenarioRows).db (by decide)).1,
   (clubs_unique_first_seen scenarioRows (loadRows scenarioRows).db (by decide)).2.1⟩

/-- Witness for C1 at the concrete scenario input. -/
theorem club_members_exact_witness :
    (∃ r ∈ scenarioRows, "Fitness Club" ∈ r.clubs) ∧
    get_club_members (loadRows scenarioRows).db "Fitness Club" =
      (scenarioRows.filter
        (fun r => decide ("Fitness Club" ∈ r.clubs))).map mkPerson :=
  ⟨by decide, club_members_exact scenarioRows (loadRows scenarioRows).db
    "Fitness Club" (by decide) (by decide)⟩

/-- Claim C9: each Person is stored with display name given-name ++ " " ++
surname and id, age, gender, location copied verbatim from its record, and
the name-keyed queries resolve Persons by exactly this concatenated display
name. -/
theorem person_fields_verbatim (rows : List Row) (db : DB)
    (hok : loadRows rows = ⟨db, none⟩) :
    db.people = rows.map (fun r =>
      { id := r.id, name := r.name ++ " " ++ r.surname, age := r.age,
        gender := r.gender, location := r.location : Person }) ∧
    (∀ r ∈ rows, (rows.map displayName).Nodup →
      db.people.find? (fun p => p.name == r.name ++ " " ++ r.surname) =
        some (mkPerson r)) := by
  obtain ⟨h1, hm, h3, rfl⟩ := loadRows_inv rows db hok
  refine ⟨rfl, ?_⟩
  intro r hr hnames
  exact find?_person_by_name hnames hr

/-- Witness for C9 at the concrete scenario input. -/
theorem person_fields_verbatim_witness :
    (loadRows scenarioRows).db.people = scenarioRows.map (fun r =>
      { id := r.id, name := r.name ++ " " ++ r.surname, age := r.age,
        gender := r.gender, location := r.location : Person }) :=
  (person_fields_verbatim scenarioRows (loadRows scenarioRows).db (by decide)).1

/-- Claim C4: every call to `load_data_from_csv` discards all existing
Persons, Clubs, friendship edges and membership edges before inserting, so
the result is the same whatever the store held before: exactly one
generation of data survives any successful load. -/
theorem load_full_reset (fs : String → Option CSVFile) (p : String) (db : DB) :
    clearDB db = DB.empty ∧
    load_data_from_csv fs p db = load_data_from_csv fs p DB.empty :=
  ⟨rfl, rfl⟩

/-- Claim C8: loading the same input twice yields query results identical to
loading it once, for all three query operations and every key. -/
theorem idempotent_reload (fs : String → Option CSVFile) (p : String) (db : DB)
    (d n m : String) :
    get_club_members
        (load_data_from_csv fs p (load_data_from_csv fs p db).db).db d =
      get_club_members (load_data_from_csv fs p db).db d ∧
    get_friends_of_person
        (load_data_from_csv fs p (load_data_from_csv fs p db).db).db n =
      get_friends_of_person (load_data_from_csv fs p db).db n ∧
    get_persons_who_consider_them_friend
        (load_data_from_csv fs p (load_data_from_csv fs p db).db).db m =
      get_persons_who_consider_them_friend (load_data_from_csv fs p db).db m :=
  ⟨rfl, rfl, rfl⟩

/-- Claim C10: `load_data_from_csv` ignores its csv_path parameter and reads
the hard-coded file "members.csv": the result is the same for any two paths,
and depends only on what the file system holds at "members.csv". -/
theorem csv_path_ignored (fs fs' : String → Option CSVFile) (p q : String)
    (db : DB) (h : fs "members.csv" = fs' "members.csv") :
    load_data_from_csv fs p db = load_data_from_csv fs q db ∧
    load_data_from_csv fs p db = load_data_from_csv fs' q db := by
  refine ⟨rfl, ?_⟩
  simp only [load_data_from_csv]
  rw [h]

/-- Witness for C10: two different file systems agreeing at members.csv and
two different paths give the same load result. -/
theorem csv_path_ignored_witness :
    load_data_from_csv dupFriendFs "other.csv" prevDB =
      load_data_from_csv (fun _ => some dupFriendFile) "third.csv" prevDB :=
  (csv_path_ignored dupFriendFs (fun _ => some dupFriendFile) "other.csv"
    "third.csv" prevDB (by decide)).2

/-- Claim C5: for a description with no matching Club and a name with no
matching Person, each query returns the empty sequence (and, being a total
function, never an error), including on a store never loaded. -/
theorem unknown_key_queries_empty (db : DB) (d n : String)
    (hd : ∀ c ∈ db.clubs, c.description ≠ d)
    (hn : ∀ p ∈ db.people, p.name ≠ n) :
    get_club_members db d = [] ∧
    get_friends_of_person db n = [] ∧
    get_persons_who_consider_them_friend db n = [] := by
  have h1 : db.clubs.find? (fun c => c.description == d) = none :=
    List.find?_eq_none.mpr (fun c hc => by simpa using hd c hc)
  have h2 : db.people.find? (fun p => p.name == n) = none :=
    List.find?_eq_none.mpr (fun p hp => by simpa using hn p hp)
  refine ⟨?_, ?_, ?_⟩ <;>
    simp [get_club_members, get_friends_of_person,
      get_persons_who_consider_them_friend, h1, h2]

/-- Witness for C5 on the never-loaded empty store with the design's own
unknown keys. -/
theorem unknown_key_queries_empty_witness :
    get_club_members DB.empty "Nonexistent Club" = [] ∧
    get_friends_of_person DB.empty "Nobody" = [] ∧
    get_persons_who_consider_them_friend DB.empty "Nobody" = [] :=
  unknown_key_queries_empty DB.empty "Nonexistent Club" "Nobody"
    (by decide) (by decide)

/-- Claim C2, amended: friendship is directed and not symmetric — provided no
two loaded Persons share a display name (the queries resolve persons by name
through a first-match lookup), whenever A's record lists B's id and B's
record does not list A's id, B appears among A's friends, A does not appear
among B's friends, and A appears among those who consider B a friend. -/
theorem friendship_asymmetry_amended (rows : List Row) (db : DB)
    (hok : loadRows rows = ⟨db, none⟩)
    (hnames : (rows.map displayName).Nodup)
    (A B : Row) (hA : A ∈ rows) (hB : B ∈ rows)
    (hAB : B.id ∈ A.friendships) (hBA : A.id ∉ B.friendships) :
    mkPerson B ∈ get_friends_of_person db (displayName A) ∧
    mkPerson A ∉ get_friends_of_person db (displayName B) ∧
    mkPerson A ∈ get_persons_who_consider_them_friend db (displayName B) := by
  obtain ⟨h1, hm, h3, rfl⟩ := loadRows_inv rows db hok
  rw [map_mkPerson_id] at h1
  have hedge : (A.id, B.id) ∈ pass2 rows :=
    (mem_pass2_iff rows A.id B.id).mpr ⟨A, hA, rfl, hAB, B, hB, rfl⟩
  have hfA := find?_person_by_name hnames hA
  have hfB := find?_person_by_name hnames hB
  refine ⟨?_, ?_, ?_⟩
  · simp only [get_friends_of_person, hfA]
    apply List.mem_filterMap.mpr
    refine ⟨(A.id, B.id), List.mem_filter.mpr ⟨hedge, by simp [mkPerson]⟩, ?_⟩
    exact find?_person_by_id h1 hB
  · intro hmem
    simp only [get_friends_of_person, hfB] at hmem
    rcases List.mem_filterMap.mp hmem with ⟨e, he, hfind⟩
    rcases List.mem_filter.mp he with ⟨hepass, hefst⟩
    have he1 : e.1 = B.id := by simpa [mkPerson] using hefst
    have hpred := List.find?_some hfind
    have he2 : e.2 = A.id := by
      have : (mkPerson A).id = e.2 := beq_iff_eq.mp hpred
      simpa [mkPerson] using this.symm
    have hepass2 : (B.id, A.id) ∈ pass2 rows := by
      have heq : e = (B.id, A.id) := Prod.ext he1 he2
      rwa [heq] at hepass
    rcases (mem_pass2_iff rows B.id A.id).mp hepass2 with ⟨r, hr, hrid, hmemA, _⟩
    have hrB : r = B := List.inj_on_of_nodup_map h1 hr hB hrid
    exact hBA (hrB ▸ hmemA)
  · simp only [get_persons_who_consider_them_friend, hfB]
    apply List.mem_filter.mpr
    refine ⟨List.mem_map_of_mem mkPerson hA, ?_⟩
    apply List.any_eq_true.mpr
    exact ⟨(A.id, B.id), hedge, by simp [mkPerson]⟩

/-- Witness for the amended C2 at the concrete scenario input: John lists
Amanda, Amanda does not list John. -/
theorem friendship_asymmetry_amended_witness :
    mkPerson ⟨1, "Amanda", "Norris", 27, "Female", "CA", ["Fitness Club"], []⟩ ∈
      get_friends_of_person (loadRows scenarioRows).db
        (displayName ⟨0, "John", "Rocha", 57, "Male", "MN", ["Fitness Club"], [1]⟩) ∧
    mkPerson ⟨0, "John", "Rocha", 57, "Male", "MN", ["Fitness Club"], [1]⟩ ∉
      get_friends_of_person (loadRows scenarioRows).db
        (displayName ⟨1, "Amanda", "Norris", 27, "Female", "CA", ["Fitness Club"], []⟩) ∧
    mkPerson ⟨0, "John", "Rocha", 57, "Male", "MN", ["Fitness Club"], [1]⟩ ∈
      get_persons_who_consider_them_friend (loadRows scenarioRows).db
        (displayName ⟨1, "Amanda", "Norris", 27, "Female", "CA", ["Fitness Club"], []⟩) :=
  friendship_asymmetry_amended scenarioRows (loadRows scenarioRows).db
    (by decide) (by decide)
    ⟨0, "John", "Rocha", 57, "Male", "MN", ["Fitness Club"], [1]⟩
    ⟨1, "Amanda", "Norris", 27, "Female", "CA", ["Fitness Club"], []⟩
    (by decide) (by decide) (by decide) (by decide)

/-- Counterexample to C2 as stated: in a successfully loaded input two
persons share the display name "Alex Reed"; person 6 lists person 7 and 7
does not list 6, yet person 7 is absent from `get_friends_of_person` on
person 6's display name — the lookup resolves the name to person 5. -/
theorem friendship_asymmetry_counterexample :
    (loadRows dupNameRows).error = none ∧
    mkPerson ⟨6, "Alex", "Reed", 31, "M", "WA", [], [7]⟩ ∈
      (loadRows dupNameRows).db.people ∧
    mkPerson ⟨7, "Blake", "Stone", 32, "M", "OR", [], []⟩ ∈
      (loadRows dupNameRows).db.people ∧
    (7 : Int) ∈ (⟨6, "Alex", "Reed", 31, "M", "WA", [], [7]⟩ : Row).friendships ∧
    (6 : Int) ∉ (⟨7, "Blake", "Stone", 32, "M", "OR", [], []⟩ : Row).friendships ∧
    mkPerson ⟨7, "Blake", "Stone", 32, "M", "OR", [], []⟩ ∉
      get_friends_of_person (loadRows dupNameRows).db
        (displayName ⟨6, "Alex", "Reed", 31, "M", "WA", [], [7]⟩) := by
  decide

/-- Claim C3, amended: for every record R and friend id F in R's list, given
an input whose primary keys commit cleanly: the load completes without error
regardless of dangling friend ids; if some record S has id F, a directed
edge (R.id, F) is created — and, provided display names are unique, S's
Person appears in `get_friends_of_person` on R's display name (forward
references resolve since friendships are wired in a second pass); if no
record has id F, the entry is skipped: no edge (R.id, F) exists. -/
theorem friend_wiring_amended (rows : List Row)
    (h1 : (rows.map Row.id).Nodup)
    (hm : (buildClubs rows).club_members.Nodup)
    (h3 : (pass2 rows).Nodup)
    (R : Row) (hR : R ∈ rows) (F : Int) (hF : F ∈ R.friendships) :
    (loadRows rows).error = none ∧
    (∀ S ∈ rows, S.id = F →
      ((R.id, F) ∈ (loadRows rows).db.friendships ∧
       ((rows.map displayName).Nodup →
         mkPerson S ∈ get_friends_of_person (loadRows rows).db (displayName R)))) ∧
    ((∀ S ∈ rows, S.id ≠ F) → (R.id, F) ∉ (loadRows rows).db.friendships) := by
  have h1' : ((rows.map mkPerson).map Person.id).Nodup := by
    rw [map_mkPerson_id]
    exact h1
  have hload := loadRows_ok rows h1' hm h3
  rw [hload]
  refine ⟨rfl, ?_, ?_⟩
  · intro S hS hSF
    subst hSF
    have hedge : (R.id, S.id) ∈ pass2 rows :=
      (mem_pass2_iff rows R.id S.id).mpr ⟨R, hR, rfl, hF, S, hS, rfl⟩
    refine ⟨hedge, ?_⟩
    intro hnames
    have hfR := find?_person_by_name hnames hR
    simp only [get_friends_of_person, hfR]
    apply List.mem_filterMap.mpr
    refine ⟨(R.id, S.id), List.mem_filter.mpr ⟨hedge, by simp [mkPerson]⟩, ?_⟩
    exact find?_person_by_id h1 hS
  · intro hno hmem
    rcases (mem_pass2_iff rows R.id F).mp hmem with ⟨r, hr, _, _, s, hs, hsid⟩
    exact hno s hs hsid

/-- Witness for the amended C3 on an input with a dangling reference: record
20 lists the loaded id 21 and the absent id 99; the load succeeds, the edge
to 21 exists and resolves by name, and no edge to 99 exists. -/
theorem friend_wiring_amended_witness :
    (loadRows danglingRows).error = none ∧
    mkPerson ⟨21, "Ivan", "Jones", 51, "M", "UT", ["Book Club", "Ski Club"], []⟩ ∈
      get_friends_of_person (loadRows danglingRows).db
        (displayName ⟨20, "Gail", "Hart", 50, "F", "NV", ["Book Club"], [21, 99]⟩) ∧
    ((20 : Int), (99 : Int)) ∉ (loadRows danglingRows).db.friendships := by
  refine ⟨?_, ?_, ?_⟩
  · exact (friend_wiring_amended danglingRows (by decide) (by decide) (by decide)
      ⟨20, "Gail", "Hart", 50, "F", "NV", ["Book Club"], [21, 99]⟩ (by decide)
      21 (by decide)).1
  · exact ((friend_wiring_amended danglingRows (by decide) (by decide) (by decide)
      ⟨20, "Gail", "Hart", 50, "F", "NV", ["Book Club"], [21, 99]⟩ (by decide)
      21 (by decide)).2.1
      ⟨21, "Ivan", "Jones", 51, "M", "UT", ["Book Club", "Ski Club"], []⟩
      (by decide) (by decide)).2 (by decide)
  · exact (friend_wiring_amended danglingRows (by decide) (by decide) (by decide)
      ⟨20, "Gail", "Hart", 50, "F", "NV", ["Book Club"], [21, 99]⟩ (by decide)
      99 (by decide)).2.2 (by decide)

/-- Counterexample to C3 as stated: in a successfully loaded input, record 11
lists the loaded id 12, so the edge exists, but two persons share the display
name "Dana Lee" and person 12 does not appear in `get_friends_of_person` on
record 11's display name — the lookup resolves to record 10. -/
theorem friend_wiring_counterexample :
    (loadRows dupNameRows2).error = none ∧
    (⟨11, "Dana", "Lee", 41, "M", "WA", [], [12]⟩ : Row) ∈ dupNameRows2 ∧
    (12 : Int) ∈ (⟨11, "Dana", "Lee", 41, "M", "WA", [], [12]⟩ : Row).friendships ∧
    (∃ S ∈ dupNameRows2, S.id = 12) ∧
    mkPerson ⟨12, "Evan", "Poe", 42, "M", "OR", [], []⟩ ∉
      get_friends_of_person (loadRows dupNameRows2).db
        (displayName ⟨11, "Dana", "Lee", 41, "M", "WA", [], [12]⟩) := by
  decide

/-- Claim C6, amended: a malformed row fails the whole load with a
descriptive error reported to the caller, but malformed input is not the
only fatal case (a duplicate primary key also aborts the load), and the
state the failed load leaves depends on where the failure strikes.  Failures
at read time or in the first loop — an unparsable list literal in a present
Clubs or Friendships column, or a missing ID, Name, Surname, Age, Gender,
Location or Clubs column — precede the first commit and leave the store
clearly empty (the clear of the previous contents is already committed).
Failures after the first commit — a missing Friendships column, first read
by the second loop, or a duplicate friendship pair at the second commit —
leave the new people, clubs and memberships loaded with no friendship
edges: a partial-load state, neither the previous contents nor empty. -/
theorem malformed_load_amended (fs : String → Option CSVFile) (p : String)
    (db : DB) (file : CSVFile) (hfs : fs "members.csv" = some file) :
    (∀ e, convertersOk file = Except.error e →
      load_data_from_csv fs p db = ⟨DB.empty, some e⟩) ∧
    (∀ e, convertersOk file = Except.ok () → readMain file = Except.error e →
      load_data_from_csv fs p db = ⟨DB.empty, some e⟩) ∧
    (∀ rows, convertersOk file = Except.ok () → readMain file = Except.ok rows →
      hasCol file "Friendships" = false → file.rows.isEmpty = false →
      ((rows.map mkPerson).map Person.id).Nodup →
      (buildClubs rows).club_members.Nodup →
      load_data_from_csv fs p db =
        ⟨⟨rows.map mkPerson, (buildClubs rows).clubs, [],
          (buildClubs rows).club_members⟩, some "KeyError: Friendships"⟩) ∧
    (∀ rows, convertersOk file = Except.ok () → readMain file = Except.ok rows →
      hasCol file "Friendships" = true →
      ((rows.map mkPerson).map Person.id).Nodup →
      (buildClubs rows).club_members.Nodup →
      ¬ (pass2 rows).Nodup →
      load_data_from_csv fs p db =
        ⟨⟨rows.map mkPerson, (buildClubs rows).clubs, [],
          (buildClubs rows).club_members⟩, some pkErrFriend⟩) := by
  refine ⟨?_, ?_, ?_, ?_⟩
  · intro e he
    simp only [load_data_from_csv, hfs, he]
    rfl
  · intro e hc he
    simp only [load_data_from_csv, hfs, hc, he]
    rfl
  · intro rows hc hr hcol hempty h1 hm
    simp only [load_data_from_csv, hfs, hc, hr, hcol, hempty]
    rw [if_neg (by simp), if_pos ⟨h1, hm⟩]
  · intro rows hc hr hcol h1 hm h3
    simp only [load_data_from_csv, hfs, hc, hr, hcol]
    rw [if_pos (by simp)]
    simp only [loadRows]
    rw [if_pos ⟨h1, hm⟩, if_neg h3]

/-- Witness for the amended C6 on three concrete inputs: an unparsable Clubs
literal fails at read time and leaves the store empty; a file without a
Friendships column fails in the second loop and leaves people, clubs and
memberships loaded with no friendships; a well-formed file with a duplicated
friendship entry fails at the second commit and leaves the same partial
shape. -/
theorem malformed_load_amended_witness :
    load_data_from_csv badLiteralFs "whatever.csv" prevDB =
      ⟨DB.empty, some "SyntaxError: Clubs: [oops"⟩ ∧
    load_data_from_csv missingFriendshipsFs "members.csv" prevDB =
      ⟨⟨missingFriendshipsRows.map mkPerson,
        (buildClubs missingFriendshipsRows).clubs, [],
        (buildClubs missingFriendshipsRows).club_members⟩,
       some "KeyError: Friendships"⟩ ∧
    load_data_from_csv dupFriendFs "members.csv" prevDB =
      ⟨⟨dupFriendRows.map mkPerson, (buildClubs dupFriendRows).clubs, [],
        (buildClubs dupFriendRows).club_members⟩, some pkErrFriend⟩ := by
  refine ⟨?_, ?_, ?_⟩
  · exact (malformed_load_amended badLiteralFs "whatever.csv" prevDB
      badLiteralFile (by decide)).1 "SyntaxError: Clubs: [oops" (by rfl)
  · exact (malformed_load_amended missingFriendshipsFs "members.csv" prevDB
      missingFriendshipsFile (by decide)).2.2.1 missingFriendshipsRows
      (by rfl) (by rfl) (by rfl) (by rfl) (by decide) (by decide)
  · exact (malformed_load_amended dupFriendFs "members.csv" prevDB
      dupFriendFile (by decide)).2.2.2 dupFriendRows
      (by rfl) (by rfl) (by rfl) (by decide) (by decide) (by decide)

/-- Counterexample to C6 as stated, at two concrete inputs.  `dupFriendFile`
has no malformed row — its converters run clean, every first-loop column
parses, and the Friendships column is present — yet the load fails, so
malformed input is not the only fatal case, and the store it leaves is
neither the previous contents nor empty: a partial-load state.  And
`missingFriendshipsFile` — malformed input, its Friendships column missing —
also leaves the store neither intact nor empty, because the KeyError of
`row["Friendships"]` strikes only in the second loop, after the first
commit. -/
theorem malformed_load_counterexample :
    convertersOk dupFriendFile = Except.ok () ∧
    readMain dupFriendFile = Except.ok dupFriendRows ∧
    hasCol dupFriendFile "Friendships" = true ∧
    (load_data_from_csv dupFriendFs "members.csv" prevDB).error ≠ none ∧
    (load_data_from_csv dupFriendFs "members.csv" prevDB).db ≠ prevDB ∧
    (load_data_from_csv dupFriendFs "members.csv" prevDB).db ≠ DB.empty ∧
    hasCol missingFriendshipsFile "Friendships" = false ∧
    (load_data_from_csv missingFriendshipsFs "members.csv" prevDB).error ≠ none ∧
    (load_data_from_csv missingFriendshipsFs "members.csv" prevDB).db ≠ prevDB ∧
    (load_data_from_csv missingFriendshipsFs "members.csv" prevDB).db ≠ DB.empty := by
  refine ⟨by rfl, by rfl, by rfl, by decide, by decide, by decide, by rfl,
    by decide, by decide, by decide⟩
